import Mathlib

/-!
Shallow embedding of the MyTableJs widget core (src/MyTableJs.js) and proofs
about its row store, filter engine and paginator.

Modelling choices:
* JS objects (rows) and the JS `Map` are both modelled as insertion-ordered
  association lists.  `alSet` models both `Map.set` and JS property
  assignment (update in place if the key exists, else append), `alMergeObj`
  models the object-spread merge `{...a, ...b}`, `alDelete` models
  `Map.delete`, `alGet`/`alHas` model lookup / `Map.has`.
* Row field values are either numbers (modelled as `Int`; the repository only
  ever manipulates integral ids) or strings.  `Number(x)` coercion is
  modelled by `jsToNumber`, with `none` playing the role of `NaN`.
* Strings are Lean `String`s; lowercasing uses `Char.toLower`, which agrees
  with JavaScript `toLowerCase` on the ASCII range.
-/

set_option linter.unusedSectionVars false
set_option linter.unusedVariables false

namespace MyTable

/-- Model of the JavaScript values stored in row fields: numbers or strings. -/
inductive JsVal where
  | num (n : Int)
  | str (s : String)
deriving Repr, DecidableEq

/-- A JS object (a row): insertion-ordered association list from field name to value. -/
abbrev JsObj := List (String × JsVal)

section AssocList

variable {κ τ : Type} [BEq κ] [LawfulBEq κ]

/-- Does the association list have an entry for key `k`? (JS `Map.has` / `key in obj`). -/
def alHas (l : List (κ × τ)) (k : κ) : Bool :=
  l.any (fun p => p.1 == k)

/-- Value of the first entry for key `k` (JS `Map.get` / property read). -/
def alGet (l : List (κ × τ)) (k : κ) : Option τ :=
  (l.find? (fun p => p.1 == k)).map (fun p => p.2)

/-- JS `Map.set` / property assignment: update in place if present, else append. -/
def alSet (l : List (κ × τ)) (k : κ) (v : τ) : List (κ × τ) :=
  if alHas l k then l.map (fun p => if p.1 == k then (k, v) else p) else l ++ [(k, v)]

/-- JS `Map.delete`: remove all entries for the key. -/
def alDelete (l : List (κ × τ)) (k : κ) : List (κ × τ) :=
  l.filter (fun p => !(p.1 == k))

/-- The keys, in insertion order (JS `Map.keys()`). -/
def alKeys (l : List (κ × τ)) : List κ :=
  l.map (fun p => p.1)

/-- Object-spread merge `{...a, ...b}`: keys of `a` in their order with values
overridden by `b` where present, then the keys of `b` not in `a`, in order. -/
def alMergeObj (a b : List (κ × τ)) : List (κ × τ) :=
  a.map (fun p => if alHas b p.1 then (p.1, (alGet b p.1).getD p.2) else p)
    ++ b.filter (fun p => !(alHas a p.1))

theorem alHas_nil {k : κ} : alHas ([] : List (κ × τ)) k = false := rfl

theorem alHas_cons {p : κ × τ} {t : List (κ × τ)} {k : κ} :
    alHas (p :: t) k = ((p.1 == k) || alHas t k) := by
  simp [alHas]

theorem alGet_nil {k : κ} : alGet ([] : List (κ × τ)) k = none := rfl

theorem alGet_cons_pos {p : κ × τ} {t : List (κ × τ)} {k : κ}
    (h : (p.1 == k) = true) : alGet (p :: t) k = some p.2 := by
  simp [alGet, List.find?_cons, h]

theorem alGet_cons_neg {p : κ × τ} {t : List (κ × τ)} {k : κ}
    (h : (p.1 == k) = false) : alGet (p :: t) k = alGet t k := by
  simp [alGet, List.find?_cons, h]

theorem alGet_eq_none_of_not_has {l : List (κ × τ)} {k : κ}
    (h : alHas l k = false) : alGet l k = none := by
  induction l with
  | nil => rfl
  | cons p t ih =>
    rw [alHas_cons, Bool.or_eq_false_iff] at h
    rw [alGet_cons_neg h.1]
    exact ih h.2

theorem alGet_isSome_of_has {l : List (κ × τ)} {k : κ}
    (h : alHas l k = true) : ∃ v, alGet l k = some v := by
  induction l with
  | nil => simp [alHas] at h
  | cons p t ih =>
    cases hp : (p.1 == k) with
    | true => exact ⟨p.2, alGet_cons_pos hp⟩
    | false =>
      rw [alHas_cons, hp, Bool.false_or] at h
      obtain ⟨v, hv⟩ := ih h
      exact ⟨v, by rw [alGet_cons_neg hp]; exact hv⟩

theorem alHas_eq_isSome {l : List (κ × τ)} {k : κ} :
    alHas l k = (alGet l k).isSome := by
  cases h : alHas l k with
  | true => obtain ⟨v, hv⟩ := alGet_isSome_of_has h; rw [hv]; rfl
  | false => rw [alGet_eq_none_of_not_has h]; rfl

theorem alHas_iff_mem_keys {l : List (κ × τ)} {k : κ} :
    alHas l k = true ↔ k ∈ alKeys l := by
  simp [alHas, alKeys, List.any_eq_true, List.mem_map, beq_iff_eq]

theorem alGet_alSet_self {l : List (κ × τ)} {k : κ} {v : τ} :
    alGet (alSet l k v) k = some v := by
  unfold alSet
  cases h : alHas l k with
  | true =>
    simp only [if_true]
    induction l with
    | nil => simp [alHas] at h
    | cons p t ih =>
      cases hp : (p.1 == k) with
      | true =>
        rw [List.map_cons, if_pos hp]
        exact alGet_cons_pos (by simp)
      | false =>
        rw [alHas_cons, hp, Bool.false_or] at h
        rw [List.map_cons, if_neg (by simp [hp])]
        rw [alGet_cons_neg hp]
        exact ih h
  | false =>
    simp only [Bool.false_eq_true, if_false]
    induction l with
    | nil => exact alGet_cons_pos (by simp)
    | cons p t ih =>
      rw [alHas_cons, Bool.or_eq_false_iff] at h
      rw [List.cons_append, alGet_cons_neg h.1]
      exact ih h.2

theorem alGet_alSet_ne {l : List (κ × τ)} {k j : κ} {v : τ}
    (h : j ≠ k) : alGet (alSet l k v) j = alGet l j := by
  have hkj : (k == j) = false := by simp [Ne.symm h]
  unfold alSet
  cases hh : alHas l k with
  | true =>
    simp only [if_true]
    induction l with
    | nil => rfl
    | cons p t ih =>
      cases hp : (p.1 == k) with
      | true =>
        have hpk : p.1 = k := by simpa using hp
        have hpj : (p.1 == j) = false := by simp [hpk, Ne.symm h]
        rw [List.map_cons, if_pos hp, alGet_cons_neg hkj, alGet_cons_neg hpj]
        cases ht : alHas t k with
        | true => exact ih ht
        | false =>
          have hmap : List.map (fun p => if p.1 == k then (k, v) else p) t = List.map id t := by
            apply List.map_congr_left
            intro p' hp'
            have hne : (p'.1 == k) = false := by
              cases hq : (p'.1 == k) with
              | false => rfl
              | true =>
                exfalso
                have : alHas t k = true := by
                  simp only [alHas, List.any_eq_true]
                  exact ⟨p', hp', hq⟩
                rw [this] at ht
                cases ht
            simp [hne]
          rw [hmap, List.map_id]
      | false =>
        rw [alHas_cons, hp, Bool.false_or] at hh
        rw [List.map_cons, if_neg (by simp [hp])]
        cases hpj : (p.1 == j) with
        | true => rw [alGet_cons_pos hpj, alGet_cons_pos hpj]
        | false =>
          rw [alGet_cons_neg hpj, alGet_cons_neg hpj]
          exact ih hh
  | false =>
    simp only [Bool.false_eq_true, if_false]
    induction l with
    | nil =>
      rw [List.nil_append, alGet_cons_neg hkj]
    | cons p t ih =>
      rw [alHas_cons, Bool.or_eq_false_iff] at hh
      rw [List.cons_append]
      cases hpj : (p.1 == j) with
      | true => rw [alGet_cons_pos hpj, alGet_cons_pos hpj]
      | false =>
        rw [alGet_cons_neg hpj, alGet_cons_neg hpj]
        exact ih hh.2

theorem alHas_alSet {l : List (κ × τ)} {k j : κ} {v : τ} :
    alHas (alSet l k v) j = (alHas l j || (j == k)) := by
  by_cases h : j = k
  · subst h
    have h1 : alGet (alSet l j v) j = some v := alGet_alSet_self
    have h2 : alHas (alSet l j v) j = true := by
      rw [alHas_eq_isSome, h1]; rfl
    simp [h2]
  · have hne : (j == k) = false := by simp [h]
    rw [hne, Bool.or_false, alHas_eq_isSome, alHas_eq_isSome, alGet_alSet_ne h]

theorem alKeys_alSet {l : List (κ × τ)} {k : κ} {v : τ} :
    alKeys (alSet l k v) = if alHas l k then alKeys l else alKeys l ++ [k] := by
  unfold alSet
  cases h : alHas l k with
  | true =>
    simp only [if_true, alKeys, List.map_map]
    apply List.map_congr_left
    intro p _
    cases hp : (p.1 == k) with
    | true =>
      simp only [Function.comp_apply, if_pos hp]
      simpa using (eq_of_beq hp).symm
    | false => simp [Function.comp_apply, hp]
  | false => simp [alKeys]

theorem alHas_alDelete {l : List (κ × τ)} {k j : κ} :
    alHas (alDelete l k) j = (alHas l j && !(j == k)) := by
  induction l with
  | nil => simp [alDelete, alHas]
  | cons p t ih =>
    simp only [alDelete, List.filter_cons]
    cases hp : (p.1 == k) with
    | true =>
      have hpk : p.1 = k := by simpa using hp
      simp only [Bool.not_true, Bool.false_eq_true, if_false]
      rw [show List.filter (fun p => !(p.1 == k)) t = alDelete t k from rfl, ih, alHas_cons]
      cases hj : (j == k) with
      | true => simp
      | false =>
        have hjk : j ≠ k := by simpa using hj
        have : (p.1 == j) = false := by simp [hpk, Ne.symm hjk]
        simp [this]
    | false =>
      simp only [Bool.not_false, if_true]
      rw [alHas_cons, alHas_cons,
        show List.filter (fun p => !(p.1 == k)) t = alDelete t k from rfl, ih]
      cases hpj : (p.1 == j) with
      | true =>
        have : (j == k) = false := by
          have hpja : p.1 = j := by simpa using hpj
          rw [← hpja]; exact hp
        simp [this]
      | false => simp

theorem alGet_alDelete {l : List (κ × τ)} {k j : κ} :
    alGet (alDelete l k) j = if j == k then none else alGet l j := by
  induction l with
  | nil => simp [alDelete, alGet_nil]
  | cons p t ih =>
    simp only [alDelete, List.filter_cons]
    cases hp : (p.1 == k) with
    | true =>
      have hpk : p.1 = k := by simpa using hp
      simp only [Bool.not_true, Bool.false_eq_true, if_false]
      rw [show List.filter (fun p => !(p.1 == k)) t = alDelete t k from rfl, ih]
      cases hj : (j == k) with
      | true => simp
      | false =>
        have hjk : j ≠ k := by simpa using hj
        have hpj : (p.1 == j) = false := by simp [hpk, Ne.symm hjk]
        simp only [Bool.false_eq_true, if_false, alGet_cons_neg hpj]
    | false =>
      simp only [Bool.not_false, if_true]
      cases hpj : (p.1 == j) with
      | true =>
        have hpja : p.1 = j := by simpa using hpj
        have hj : (j == k) = false := by rw [← hpja]; exact hp
        rw [alGet_cons_pos hpj, alGet_cons_pos hpj, hj]
        simp
      | false =>
        rw [alGet_cons_neg hpj, alGet_cons_neg hpj,
          show List.filter (fun p => !(p.1 == k)) t = alDelete t k from rfl, ih]

theorem alGet_filter_not_has {a b : List (κ × τ)} {k : κ}
    (h : alHas a k = false) :
    alGet (b.filter (fun p => !(alHas a p.1))) k = alGet b k := by
  induction b with
  | nil => rfl
  | cons q t ih =>
    simp only [List.filter_cons]
    cases hq : (q.1 == k) with
    | true =>
      have : alHas a q.1 = false := by rwa [eq_of_beq hq]
      simp only [this, Bool.not_false, if_true]
      rw [alGet_cons_pos hq, alGet_cons_pos hq]
    | false =>
      cases hk : (alHas a q.1) with
      | true =>
        simp only [Bool.not_true, Bool.false_eq_true, if_false]
        rw [ih, alGet_cons_neg hq]
      | false =>
        simp only [Bool.not_false, if_true]
        rw [alGet_cons_neg hq, alGet_cons_neg hq]
        exact ih

theorem alGet_append {x y : List (κ × τ)} {k : κ} :
    alGet (x ++ y) k = (alGet x k).or (alGet y k) := by
  unfold alGet
  rw [List.find?_append]
  cases List.find? (fun p => p.1 == k) x <;> simp

theorem alGet_map_override_of_has {a b : List (κ × τ)} {k : κ}
    (h : alHas a k = true) :
    alGet (a.map (fun p => if alHas b p.1 then (p.1, (alGet b p.1).getD p.2) else p)) k
      = if alHas b k then alGet b k else alGet a k := by
  induction a with
  | nil => simp [alHas] at h
  | cons p t ih =>
    rw [List.map_cons]
    cases hp : (p.1 == k) with
    | true =>
      have hpk : p.1 = k := by simpa using hp
      cases hb : alHas b k with
      | true =>
        obtain ⟨v, hv⟩ := alGet_isSome_of_has hb
        have hbp : alHas b p.1 = true := by rw [hpk]; exact hb
        rw [if_pos hbp, alGet_cons_pos (show (((p.1 : κ), (alGet b p.1).getD p.2).1 == k) = true from hp)]
        simp [hpk, hv]
      | false =>
        have hbp : alHas b p.1 = false := by rw [hpk]; exact hb
        rw [if_neg (by simp [hbp]), alGet_cons_pos hp, if_neg (by simp [hb]),
          alGet_cons_pos hp]
    | false =>
      have ht : alHas t k = true := by
        rw [alHas_cons, hp, Bool.false_or] at h
        exact h
      have heads : ((if alHas b p.1 then (p.1, (alGet b p.1).getD p.2) else p).1 == k) = false := by
        cases hib : alHas b p.1 with
        | true => simpa [hib] using hp
        | false => simpa [hib] using hp
      rw [alGet_cons_neg heads, ih ht, alGet_cons_neg hp]

theorem alGet_map_override_of_not_has {a b : List (κ × τ)} {k : κ}
    (h : alHas a k = false) :
    alGet (a.map (fun p => if alHas b p.1 then (p.1, (alGet b p.1).getD p.2) else p)) k
      = none := by
  induction a with
  | nil => rfl
  | cons p t ih =>
    rw [alHas_cons, Bool.or_eq_false_iff] at h
    rw [List.map_cons]
    have heads : ((if alHas b p.1 then (p.1, (alGet b p.1).getD p.2) else p).1 == k) = false := by
      cases hib : alHas b p.1 with
      | true => simpa [hib] using h.1
      | false => simpa [hib] using h.1
    rw [alGet_cons_neg heads]
    exact ih h.2

theorem alGet_alMergeObj {a b : List (κ × τ)} {k : κ} :
    alGet (alMergeObj a b) k = if alHas b k then alGet b k else alGet a k := by
  unfold alMergeObj
  rw [alGet_append]
  cases ha : alHas a k with
  | true =>
    rw [alGet_map_override_of_has ha]
    cases hb : alHas b k with
    | true =>
      obtain ⟨v, hv⟩ := alGet_isSome_of_has hb
      simp [hv]
    | false =>
      obtain ⟨w, hw⟩ := alGet_isSome_of_has ha
      simp [hw]
  | false =>
    rw [alGet_map_override_of_not_has ha, Option.none_or, alGet_filter_not_has ha]
    cases hb : alHas b k with
    | true => simp
    | false =>
      rw [alGet_eq_none_of_not_has ha, alGet_eq_none_of_not_has hb]
      simp

end AssocList

section Strings

theorem char_toNat_ofNat {n : Nat} (h : n < 55296) : (Char.ofNat n).toNat = n := by
  rw [Char.ofNat, dif_pos (Or.inl h)]
  rfl

theorem toLower_eq_ite (c : Char) :
    Char.toLower c = if c.toNat ≥ 65 ∧ c.toNat ≤ 90 then Char.ofNat (c.toNat + 32) else c := rfl

theorem toLower_toNat (c : Char) :
    (Char.toLower c).toNat = if c.toNat ≥ 65 ∧ c.toNat ≤ 90 then c.toNat + 32 else c.toNat := by
  rw [toLower_eq_ite]
  by_cases h : c.toNat ≥ 65 ∧ c.toNat ≤ 90
  · rw [if_pos h, if_pos h, char_toNat_ofNat (by omega)]
  · rw [if_neg h, if_neg h]

theorem char_toNat_inj {c d : Char} (h : c.toNat = d.toNat) : c = d :=
  Char.ext (UInt32.toNat.inj h)

theorem toLower_eq_comma_iff {c : Char} : Char.toLower c = ',' ↔ c = ',' := by
  constructor
  · intro h
    have hn : (Char.toLower c).toNat = 44 := by rw [h]; rfl
    rw [toLower_toNat] at hn
    by_cases hc : c.toNat ≥ 65 ∧ c.toNat ≤ 90
    · rw [if_pos hc] at hn; omega
    · rw [if_neg hc] at hn
      exact char_toNat_inj (by rw [hn]; rfl)
  · intro h
    rw [h]
    rfl

theorem isWhitespace_eq_false_of_ge64 {c : Char} (h : 64 ≤ c.toNat) :
    c.isWhitespace = false := by
  have hs : c ≠ ' ' := fun he => (by decide : ¬ 64 ≤ (' ' : Char).toNat) (he ▸ h)
  have ht : c ≠ '\t' := fun he => (by decide : ¬ 64 ≤ ('\t' : Char).toNat) (he ▸ h)
  have hr : c ≠ '\r' := fun he => (by decide : ¬ 64 ≤ ('\r' : Char).toNat) (he ▸ h)
  have hn : c ≠ '\n' := fun he => (by decide : ¬ 64 ≤ ('\n' : Char).toNat) (he ▸ h)
  simp [Char.isWhitespace, hs, ht, hr, hn]

theorem isWhitespace_toLower (c : Char) :
    (Char.toLower c).isWhitespace = c.isWhitespace := by
  by_cases hc : c.toNat ≥ 65 ∧ c.toNat ≤ 90
  · have h1 : (Char.toLower c).toNat = c.toNat + 32 := by rw [toLower_toNat, if_pos hc]
    rw [isWhitespace_eq_false_of_ge64 (by omega), isWhitespace_eq_false_of_ge64 (by omega)]
  · rw [show Char.toLower c = c by rw [toLower_eq_ite, if_neg hc]]

/-- JavaScript `toLowerCase` on a character list (faithful on the ASCII range). -/
def lowerL (l : List Char) : List Char := l.map Char.toLower

/-- JavaScript `value.split(',')` on a character list. -/
def splitComma : List Char → List (List Char)
  | [] => [[]]
  | c :: cs =>
    if c = ',' then [] :: splitComma cs
    else
      match splitComma cs with
      | [] => [[c]]
      | w :: ws => (c :: w) :: ws

/-- JavaScript `w.trim()` (leading and trailing whitespace removed). -/
def trimL (l : List Char) : List Char :=
  ((l.dropWhile Char.isWhitespace).reverse.dropWhile Char.isWhitespace).reverse

/-- Is `pat` a prefix of the list (helper for the substring test)? -/
def isPrefL : List Char → List Char → Bool
  | _, [] => true
  | [], _ :: _ => false
  | h :: hs, p :: ps => h == p && isPrefL hs ps

/-- JavaScript `hay.includes(pat)`: contiguous substring test. -/
def inclL : List Char → List Char → Bool
  | [], pat => isPrefL [] pat
  | h :: t, pat => isPrefL (h :: t) pat || inclL t pat

theorem splitComma_ne_nil (l : List Char) : splitComma l ≠ [] := by
  cases l with
  | nil => simp [splitComma]
  | cons c cs =>
    unfold splitComma
    by_cases h : c = ','
    · simp [h]
    · simp only [if_neg h]
      cases splitComma cs <;> simp

theorem splitComma_lowerL (l : List Char) :
    splitComma (lowerL l) = (splitComma l).map lowerL := by
  induction l with
  | nil => rfl
  | cons c cs ih =>
    show splitComma (Char.toLower c :: lowerL cs) = (splitComma (c :: cs)).map lowerL
    unfold splitComma
    by_cases h : c = ','
    · have h2 : Char.toLower c = ',' := toLower_eq_comma_iff.mpr h
      rw [if_pos h2, if_pos h, ih, List.map_cons]
      rfl
    · have h2 : ¬ Char.toLower c = ',' := fun hc => h (toLower_eq_comma_iff.mp hc)
      rw [if_neg h2, if_neg h, ih]
      obtain ⟨w, ws, hw⟩ : ∃ w ws, splitComma cs = w :: ws := by
        cases hs : splitComma cs with
        | nil => exact absurd hs (splitComma_ne_nil cs)
        | cons w ws => exact ⟨w, ws, rfl⟩
      rw [hw, List.map_cons, List.map_cons]
      rfl

theorem lowerL_reverse (l : List Char) : lowerL l.reverse = (lowerL l).reverse := by
  unfold lowerL
  rw [List.map_reverse]

theorem dropWhile_lowerL (l : List Char) :
    (lowerL l).dropWhile Char.isWhitespace = lowerL (l.dropWhile Char.isWhitespace) := by
  unfold lowerL
  rw [List.dropWhile_map]
  have hfun : (Char.isWhitespace ∘ Char.toLower) = Char.isWhitespace := by
    funext c
    exact isWhitespace_toLower c
  rw [hfun]

theorem trimL_lowerL (l : List Char) : trimL (lowerL l) = lowerL (trimL l) := by
  unfold trimL
  rw [dropWhile_lowerL, ← lowerL_reverse, dropWhile_lowerL, ← lowerL_reverse]

theorem lowerL_isEmpty (l : List Char) : (lowerL l).isEmpty = l.isEmpty := by
  cases l <;> rfl

end Strings

/-! ## JavaScript value coercions used by the source -/

/-- JavaScript truthiness of a stored value: `0` and the empty string are falsy. -/
def truthy : JsVal → Bool
  | .num n => !(n == 0)
  | .str s => !s.isEmpty

/-- Truthiness of a possibly-absent value: `undefined` is falsy. -/
def truthyOpt : Option JsVal → Bool
  | none => false
  | some v => truthy v

/-- Decimal digit parser used to model numeric string coercion. -/
def digitsToNat : List Char → Option Nat
  | [] => none
  | cs => cs.foldl (fun acc c =>
      match acc with
      | none => none
      | some a => if c.isDigit then some (a * 10 + (c.toNat - 48)) else none) (some 0)

/-- Parser for an optionally negated integer literal. -/
def parseIntL (l : List Char) : Option Int :=
  match l with
  | [] => none
  | c :: cs =>
    if c = '-' then (digitsToNat cs).map (fun n => -(n : Int))
    else (digitsToNat l).map (fun n => (n : Int))

/-- JavaScript `Number(x)` on the modelled values, `none` standing for `NaN`:
`undefined` is `NaN`, numbers are unchanged, a string is trimmed and the empty
string is `0`, an integral literal parses, anything else is `NaN`. -/
def jsToNumber : Option JsVal → Option Int
  | none => none
  | some (JsVal.num n) => some n
  | some (JsVal.str s) =>
    let t := trimL s.data
    if t.isEmpty then some 0 else parseIntL t

/-- JavaScript `String(x ?? '')` of a looked-up column value. -/
def strOfVal : Option JsVal → String
  | none => ""
  | some (JsVal.str s) => s
  | some (JsVal.num n) => toString n

/-! ## Table state -/

/-- The pagination option `{page, perPage}` of the widget. -/
structure Pagination where
  page : Int
  perPage : Nat
deriving Repr, DecidableEq

/-- The mutable fields of a `MyTableJs` instance that the core logic touches:
`rowMap`, `order`, `filteredOrder`, `rowIdCounter`, the pagination option and
the bound header (`this.thead`), the latter modelled as the list of values of
its search-input controls — `none` while `renderHeader` has never bound one. -/
structure TableState where
  rowMap : List (Int × JsObj)
  order : List Int
  filteredOrder : List Int
  rowIdCounter : Int
  pagination : Option Pagination
  thead : Option (List String)
deriving Repr, DecidableEq

/-- The state right after the constructor ran: empty map, empty order
sequences (`filteredOrder = [...order]`), counter `0`, no bound header. -/
def initState (pag : Option Pagination) : TableState :=
  { rowMap := [], order := [], filteredOrder := [], rowIdCounter := 0,
    pagination := pag, thead := none }

/-! ## Paginator -/

/-- Source `getTotalPages()`: `Math.ceil(filteredOrder.length / perPage) || 1`.
For `perPage > 0` the ceiling is `(len + perPage - 1) / perPage` in `Nat`. -/
def getTotalPages (filteredOrder : List Int) (perPage : Nat) : Nat :=
  let c := (filteredOrder.length + perPage - 1) / perPage
  if c = 0 then 1 else c

/-- Source `setPage(page)`: the page that gets stored,
`Math.max(1, Math.min(page, getTotalPages()))`. -/
def setPage (filteredOrder : List Int) (perPage : Nat) (page : Int) : Int :=
  max 1 (min page (getTotalPages filteredOrder perPage : Int))

/-- Source `getPaginatedOrder()`: `filteredOrder.slice(start, start + perPage)`
with `start = (page - 1) * perPage`; `setPage` keeps the stored page at `≥ 1`,
whence the slice is a `drop`-then-`take`. -/
def getPaginatedOrder (filteredOrder : List Int) (page : Int) (perPage : Nat) : List Int :=
  (filteredOrder.drop ((page - 1) * (perPage : Int)).toNat).take perPage

/-! ## Filter engine -/

/-- One entry of the filter spec handed to `filterTable`:
`{column, value, mode}`. -/
structure FilterEntry where
  column : String
  value : String
  mode : String
deriving Repr, DecidableEq

/-- The per-entry match of the source: lowercase the value, split on commas,
trim each word, drop empties, then test whether some word occurs in
`String(row[column] ?? '').toLowerCase()`. -/
def entryMatch (row : JsObj) (f : FilterEntry) : Bool :=
  let words := ((splitComma (lowerL f.value.data)).map trimL).filter (fun w => !w.isEmpty)
  words.any (fun w => inclL (lowerL (strOfVal (alGet row f.column)).data) w)

/-- The accumulators `andConditions`, `orConditions`, `notConditions` built by
the filter loop; an entry with empty value is skipped (`if (!value) continue`),
the `NOT` list stores the negated match, an unrecognized mode adds nowhere. -/
def condLists (row : JsObj) : List FilterEntry → List Bool × List Bool × List Bool
  | [] => ([], [], [])
  | f :: fs =>
    let rest := condLists row fs
    if f.value.isEmpty then rest
    else
      let m := entryMatch row f
      if f.mode == "AND" then (m :: rest.1, rest.2.1, rest.2.2)
      else if f.mode == "OR" then (rest.1, m :: rest.2.1, rest.2.2)
      else if f.mode == "NOT" then (rest.1, rest.2.1, (!m) :: rest.2.2)
      else rest

/-- The row predicate of `filterTable`: each accumulator passes when empty
(`length ? … : true`), `AND`/`NOT` via `every`, `OR` via `some`. -/
def rowPasses (filters : List FilterEntry) (row : JsObj) : Bool :=
  let c := condLists row filters
  let andOk := if c.1.isEmpty then true else c.1.all (fun b => b)
  let orOk := if c.2.1.isEmpty then true else c.2.1.any (fun b => b)
  let notOk := if c.2.2.isEmpty then true else c.2.2.all (fun b => b)
  andOk && orOk && notOk

/-- Source `filterTable(filters)`: recompute `filteredOrder` by filtering the
full `order` (a missing row is excluded), then `setPage(1)` when pagination is
configured.  Rendering and the `onFilterEnd` callback do not touch this state. -/
def filterTable (s : TableState) (filters : List FilterEntry) : TableState :=
  let fo := s.order.filter (fun id =>
    match alGet s.rowMap id with
    | none => false
    | some row => rowPasses filters row)
  let s1 := { s with filteredOrder := fo }
  match s1.pagination with
  | some p => { s1 with pagination := some { p with page := setPage fo p.perPage 1 } }
  | none => s1

/-- Source `resetFilter()`: first sets `filteredOrder` to a copy of `order`,
then reads `this.thead` to clear the search inputs.  When no header was ever
bound, `this.thead` is `undefined` and the member access throws a `TypeError`;
the `Except.error` branch carries the state as already mutated at the throw. -/
def resetFilter (s : TableState) : Except TableState TableState :=
  let s1 := { s with filteredOrder := s.order }
  match s1.thead with
  | none => Except.error s1
  | some inputs => Except.ok { s1 with thead := some (inputs.map (fun _ => "")) }

/-- The state `resetFilter` leaves behind, whether or not it threw. -/
def resetFilterState (s : TableState) : TableState :=
  match resetFilter s with
  | Except.ok t => t
  | Except.error t => t

/-! ## Row store -/

/-- The value read by `Number(row.id || row[this.options.idField])`: the
literal `id` field when truthy, else the configured id field (absent when no
`idField` was configured). -/
def resolvedVal (idF : Option String) (r : JsObj) : Option JsVal :=
  if truthyOpt (alGet r ("id")) then alGet r ("id")
  else
    match idF with
    | none => none
    | some k => alGet r k

/-- Source id resolution inside the `setData` loop:
`let id = Number(row.id || row[idField]); if (!id) { rowIdCounter++; id = rowIdCounter }`.
Returns `(new counter, resolved id)`; `!id` holds for `0` and `NaN`. -/
def resolveId (idF : Option String) (counter : Int) (r : JsObj) : Int × Int :=
  match jsToNumber (resolvedVal idF r) with
  | some n => if n = 0 then (counter + 1, counter + 1) else (counter, n)
  | none => (counter + 1, counter + 1)

/-- One iteration of the `setData` loop on input record `r`: resolve the id,
write it into the copied record (`row.id = id`), then either shallow-merge
into the existing row or insert and append the id to both order sequences
(guarded by `includes`). -/
def setDataStep (idF : Option String) (s : TableState) (r : JsObj) : TableState :=
  let ci := resolveId idF s.rowIdCounter r
  let rid := ci.2
  let r2 := alSet r ("id") (JsVal.num rid)
  if alHas s.rowMap rid then
    { s with rowMap := alSet s.rowMap rid (alMergeObj ((alGet s.rowMap rid).getD []) r2),
             rowIdCounter := ci.1 }
  else
    { s with rowMap := alSet s.rowMap rid r2,
             order := if s.order.any (fun x => x == rid) then s.order else s.order ++ [rid],
             filteredOrder := if s.filteredOrder.any (fun x => x == rid) then s.filteredOrder
               else s.filteredOrder ++ [rid],
             rowIdCounter := ci.1 }

/-- `Math.max(...)` over a list of keys (the empty case never occurs in the
source because it is guarded by `rowMap.size`). -/
def maxList : List Int → Int
  | [] => 0
  | x :: xs => xs.foldl max x

/-- Source `setData(rows, keepFilters)`: ingest every record in order; if
`keepFilters` is false reset `filteredOrder` to a copy of `order`; finally
recompute `rowIdCounter` as `Math.max(...rowMap.keys())`, or `0` when the map
is empty. -/
def setData (idF : Option String) (s : TableState) (rows : List JsObj)
    (keepFilters : Bool) : TableState :=
  let s1 := rows.foldl (setDataStep idF) s
  let s2 := if keepFilters then s1 else { s1 with filteredOrder := s1.order }
  { s2 with rowIdCounter := if s2.rowMap.isEmpty then 0 else maxList (alKeys s2.rowMap) }

/-- Source `removeRow(id)`: `false` on an unknown id, otherwise delete the row
and filter the id out of both order sequences (`x !== id`); the direct DOM
removal does not touch this state. -/
def removeRow (s : TableState) (id : Int) : Bool × TableState :=
  if alHas s.rowMap id then
    (true, { s with rowMap := alDelete s.rowMap id,
                    order := s.order.filter (fun x => !(x == id)),
                    filteredOrder := s.filteredOrder.filter (fun x => !(x == id)) })
  else (false, s)

/-- Source `updateRow(id, newData, updateElement)`: `false` on an unknown id,
otherwise store `{...oldData, ...newData, id}`; `updateElement` only controls
the DOM swap and does not affect this state. -/
def updateRow (s : TableState) (id : Int) (newData : JsObj) (updateElement : Bool) :
    Bool × TableState :=
  if alHas s.rowMap id then
    let updated := alSet (alMergeObj ((alGet s.rowMap id).getD []) newData) ("id") (JsVal.num id)
    (true, { s with rowMap := alSet s.rowMap id updated })
  else (false, s)

/-- Source `getRow(id)`: `rowMap.get(id) || null`. -/
def getRow (s : TableState) (id : Int) : Option JsObj :=
  alGet s.rowMap id

/-- Source `findRowByKey(key, value)`: first stored row whose field strictly
equals the value (a missing field never strictly equals a modelled value). -/
def findRowByKey (s : TableState) (key : String) (v : JsVal) : Option JsObj :=
  (s.rowMap.map (fun p => p.2)).find? (fun row => alGet row key == some v)

/-! ## Spec-side definitions (used for the refinement statements only) -/

/-- Spec wording: the search words of a filter value — split on commas, trim,
discard empty tokens. -/
def specSearchWords (value : String) : List (List Char) :=
  ((splitComma value.data).map trimL).filter (fun w => !w.isEmpty)

/-- Spec wording: an entry matches iff some search word is a case-insensitive
substring of the stringified column value (a missing column is the empty
string). -/
def specEntryMatches (row : JsObj) (f : FilterEntry) : Bool :=
  (specSearchWords f.value).any
    (fun w => inclL (lowerL (strOfVal (alGet row f.column)).data) (lowerL w))

/-- Spec wording for a row: entries with empty value affect nothing; matches
are grouped by mode; the `AND` group passes iff empty or all true, the `OR`
group iff empty or at least one true, the `NOT` group iff empty or all negated
matches true; the row is included iff all three groups pass. -/
def specRowIncluded (filters : List FilterEntry) (row : JsObj) : Bool :=
  let act := filters.filter (fun f => !f.value.isEmpty)
  let andG := (act.filter (fun f => f.mode == "AND")).map (specEntryMatches row)
  let orG := (act.filter (fun f => f.mode == "OR")).map (specEntryMatches row)
  let notG := (act.filter (fun f => f.mode == "NOT")).map (fun f => !(specEntryMatches row f))
  andG.all (fun b => b) && (orG.isEmpty || orG.any (fun b => b)) && notG.all (fun b => b)

/-- The data-model invariant stated by the spec: every id in `order` and in
`filteredOrder` is a key of `rowMap`, `filteredOrder` is a subsequence of
`order`, and the order sequences carry no duplicates. -/
def Inv (s : TableState) : Prop :=
  (∀ i ∈ s.order, alHas s.rowMap i = true) ∧
  (∀ i ∈ s.filteredOrder, alHas s.rowMap i = true) ∧
  s.filteredOrder.Sublist s.order ∧
  s.order.Nodup ∧ s.filteredOrder.Nodup

/-- A concrete one-row state used when instantiating theorems with hypotheses. -/
def oneRowState : TableState :=
  { rowMap := [(1, [(("id"), JsVal.num 1), (("name"), JsVal.str ("Alice"))])],
    order := [1], filteredOrder := [1], rowIdCounter := 1,
    pagination := none, thead := none }

/-! ## Filter engine: the loop computes the spec's three groups -/

theorem entryMatch_eq_spec (row : JsObj) (f : FilterEntry) :
    entryMatch row f = specEntryMatches row f := by
  unfold entryMatch specEntryMatches specSearchWords
  rw [splitComma_lowerL, List.map_map]
  have h1 : (trimL ∘ lowerL) = (lowerL ∘ trimL) := by
    funext t
    exact trimL_lowerL t
  rw [h1, ← List.map_map, List.filter_map]
  have h2 : ((fun w : List Char => !w.isEmpty) ∘ lowerL) = (fun w : List Char => !w.isEmpty) := by
    funext w
    simp [Function.comp_apply, lowerL_isEmpty]
  rw [h2, List.any_map]
  rfl

theorem condLists_eq_groups (row : JsObj) (fs : List FilterEntry) :
    condLists row fs =
      (((fs.filter (fun f => !f.value.isEmpty)).filter (fun f => f.mode == "AND")).map
          (entryMatch row),
       ((fs.filter (fun f => !f.value.isEmpty)).filter (fun f => f.mode == "OR")).map
          (entryMatch row),
       ((fs.filter (fun f => !f.value.isEmpty)).filter (fun f => f.mode == "NOT")).map
          (fun f => !(entryMatch row f))) := by
  induction fs with
  | nil => rfl
  | cons f t ih =>
    unfold condLists
    rw [ih]
    cases hv : f.value.isEmpty with
    | true => simp [List.filter_cons, hv]
    | false =>
      by_cases hA : f.mode = "AND"
      · simp [List.filter_cons, hv, hA]
      · by_cases hO : f.mode = "OR"
        · simp [List.filter_cons, hv, hA, hO]
        · by_cases hN : f.mode = "NOT"
          · simp [List.filter_cons, hv, hA, hO, hN]
          · simp [List.filter_cons, hv, hA, hO, hN]

theorem boolAllIf (L : List Bool) :
    (if L.isEmpty then true else L.all (fun b => b)) = L.all (fun b => b) := by
  cases L <;> simp

theorem boolAnyIf (L : List Bool) :
    (if L.isEmpty then true else L.any (fun b => b))
      = (L.isEmpty || L.any (fun b => b)) := by
  cases L <;> simp

theorem rowPasses_eq_spec (filters : List FilterEntry) (row : JsObj) :
    rowPasses filters row = specRowIncluded filters row := by
  unfold rowPasses specRowIncluded
  rw [condLists_eq_groups]
  have hmap : ∀ L : List FilterEntry, L.map (entryMatch row) = L.map (specEntryMatches row) := by
    intro L
    exact List.map_congr_left (fun f _ => entryMatch_eq_spec row f)
  have hmapn : ∀ L : List FilterEntry,
      L.map (fun f => !(entryMatch row f)) = L.map (fun f => !(specEntryMatches row f)) := by
    intro L
    exact List.map_congr_left (fun f _ => by rw [entryMatch_eq_spec])
  rw [hmap, hmap, hmapn]
  simp only [boolAllIf, boolAnyIf]

/-- The filtered order `filterTable` computes, independently of the pagination
branch. -/
theorem filterTable_filteredOrder (s : TableState) (filters : List FilterEntry) :
    (filterTable s filters).filteredOrder =
      s.order.filter (fun i =>
        match alGet s.rowMap i with
        | none => false
        | some row => rowPasses filters row) := by
  unfold filterTable
  cases s.pagination <;> rfl

theorem filterTable_order (s : TableState) (filters : List FilterEntry) :
    (filterTable s filters).order = s.order := by
  unfold filterTable
  cases s.pagination <;> rfl

theorem filterTable_rowMap (s : TableState) (filters : List FilterEntry) :
    (filterTable s filters).rowMap = s.rowMap := by
  unfold filterTable
  cases s.pagination <;> rfl

/-! ## Invariant preservation -/

theorem any_beq_iff_mem {l : List Int} {id : Int} :
    l.any (fun x => x == id) = true ↔ id ∈ l := by
  simp [List.any_eq_true]

theorem any_beq_eq_false_of_not_mem {l : List Int} {id : Int}
    (h : id ∉ l) : l.any (fun x => x == id) = false := by
  cases hx : l.any (fun x => x == id) with
  | false => rfl
  | true => exact absurd (any_beq_iff_mem.mp hx) h

theorem inv_setDataStep (idF : Option String) (s : TableState) (r : JsObj)
    (h : Inv s) : Inv (setDataStep idF s r) := by
  obtain ⟨h1, h2, h3, h4, h5⟩ := h
  simp only [setDataStep]
  by_cases hh : alHas s.rowMap (resolveId idF s.rowIdCounter r).2 = true
  · rw [if_pos hh]
    refine ⟨?_, ?_, h3, h4, h5⟩
    · intro i hi
      rw [alHas_alSet, h1 i hi, Bool.true_or]
    · intro i hi
      rw [alHas_alSet, h2 i hi, Bool.true_or]
  · rw [if_neg hh]
    have hhf : alHas s.rowMap (resolveId idF s.rowIdCounter r).2 = false := by
      cases hx : alHas s.rowMap (resolveId idF s.rowIdCounter r).2 with
      | false => rfl
      | true => exact absurd hx hh
    have hno : (resolveId idF s.rowIdCounter r).2 ∉ s.order := by
      intro hmem
      rw [h1 _ hmem] at hhf
      cases hhf
    have hnf : (resolveId idF s.rowIdCounter r).2 ∉ s.filteredOrder := by
      intro hmem
      rw [h2 _ hmem] at hhf
      cases hhf
    have ha : s.order.any (fun x => x == (resolveId idF s.rowIdCounter r).2) = false :=
      any_beq_eq_false_of_not_mem hno
    have hb : s.filteredOrder.any (fun x => x == (resolveId idF s.rowIdCounter r).2) = false :=
      any_beq_eq_false_of_not_mem hnf
    simp only [ha, hb, Bool.false_eq_true, if_false]
    refine ⟨?_, ?_, h3.append (List.Sublist.refl _), ?_, ?_⟩
    · intro i hi
      rw [alHas_alSet]
      rcases List.mem_append.mp hi with hi | hi
      · rw [h1 i hi, Bool.true_or]
      · rw [List.mem_singleton.mp hi]
        simp
    · intro i hi
      rw [alHas_alSet]
      rcases List.mem_append.mp hi with hi | hi
      · rw [h2 i hi, Bool.true_or]
      · rw [List.mem_singleton.mp hi]
        simp
    · exact h4.append (List.nodup_singleton _) (by simpa using hno)
    · exact h5.append (List.nodup_singleton _) (by simpa using hnf)

theorem inv_foldl_setDataStep (idF : Option String) (rows : List JsObj) :
    ∀ s : TableState, Inv s → Inv (rows.foldl (setDataStep idF) s) := by
  induction rows with
  | nil => exact fun s h => h
  | cons r t ih => exact fun s h => ih _ (inv_setDataStep idF s r h)

theorem inv_setData (idF : Option String) (s : TableState) (rows : List JsObj)
    (keep : Bool) (h : Inv s) : Inv (setData idF s rows keep) := by
  unfold setData
  obtain ⟨a1, a2, a3, a4, a5⟩ := inv_foldl_setDataStep idF rows s h
  cases keep with
  | false =>
    simp only [Bool.false_eq_true, if_false]
    exact ⟨a1, a1, List.Sublist.refl _, a4, a4⟩
  | true =>
    simp only [if_true]
    exact ⟨a1, a2, a3, a4, a5⟩

theorem inv_removeRow (s : TableState) (id : Int) (h : Inv s) :
    Inv (removeRow s id).2 := by
  obtain ⟨h1, h2, h3, h4, h5⟩ := h
  unfold removeRow
  by_cases hh : alHas s.rowMap id = true
  · rw [if_pos hh]
    refine ⟨?_, ?_, h3.filter _, h4.filter _, h5.filter _⟩
    · intro i hi
      rw [List.mem_filter] at hi
      rw [alHas_alDelete, h1 i hi.1, hi.2]
      rfl
    · intro i hi
      rw [List.mem_filter] at hi
      rw [alHas_alDelete, h2 i hi.1, hi.2]
      rfl
  · rw [if_neg hh]
    exact ⟨h1, h2, h3, h4, h5⟩

theorem inv_updateRow (s : TableState) (id : Int) (newData : JsObj)
    (updateElement : Bool) (h : Inv s) : Inv (updateRow s id newData updateElement).2 := by
  obtain ⟨h1, h2, h3, h4, h5⟩ := h
  unfold updateRow
  by_cases hh : alHas s.rowMap id = true
  · rw [if_pos hh]
    refine ⟨?_, ?_, h3, h4, h5⟩
    · intro i hi
      rw [alHas_alSet, h1 i hi, Bool.true_or]
    · intro i hi
      rw [alHas_alSet, h2 i hi, Bool.true_or]
  · rw [if_neg hh]
    exact ⟨h1, h2, h3, h4, h5⟩

theorem inv_filterTable (s : TableState) (filters : List FilterEntry) (h : Inv s) :
    Inv (filterTable s filters) := by
  obtain ⟨h1, h2, h3, h4, h5⟩ := h
  have ho := filterTable_order s filters
  have hf := filterTable_filteredOrder s filters
  have hm := filterTable_rowMap s filters
  refine ⟨?_, ?_, ?_, ?_, ?_⟩
  · rw [ho, hm]
    exact h1
  · rw [hf, hm]
    intro i hi
    exact h1 i (List.mem_filter.mp hi).1
  · rw [hf, ho]
    exact List.filter_sublist _
  · rw [ho]
    exact h4
  · rw [hf]
    exact h4.filter _

theorem inv_resetFilterState (s : TableState) (h : Inv s) :
    Inv (resetFilterState s) := by
  obtain ⟨h1, h2, h3, h4, h5⟩ := h
  unfold resetFilterState resetFilter
  cases s.thead with
  | none => exact ⟨h1, h1, List.Sublist.refl _, h4, h4⟩
  | some inputs => exact ⟨h1, h1, List.Sublist.refl _, h4, h4⟩

/-! ## Further structural lemmas about `setData` -/

theorem setData_single (idF : Option String) (s : TableState) (r : JsObj) (keep : Bool) :
    (setData idF s [r] keep).order = (setDataStep idF s r).order ∧
    (setData idF s [r] keep).rowMap = (setDataStep idF s r).rowMap ∧
    (setData idF s [r] keep).filteredOrder =
      (if keep then (setDataStep idF s r).filteredOrder else (setDataStep idF s r).order) := by
  unfold setData
  cases keep with
  | false => exact ⟨rfl, rfl, rfl⟩
  | true => exact ⟨rfl, rfl, rfl⟩

theorem alHas_setDataStep (idF : Option String) (s : TableState) (r : JsObj) (j : Int) :
    alHas (setDataStep idF s r).rowMap j
      = (alHas s.rowMap j || (j == (resolveId idF s.rowIdCounter r).2)) := by
  simp only [setDataStep]
  by_cases hh : alHas s.rowMap (resolveId idF s.rowIdCounter r).2 = true
  · rw [if_pos hh, alHas_alSet]
  · rw [if_neg hh, alHas_alSet]

/-! ## Claim C1 -/

/-- C1: `filterTable` produces exactly the ids of the full `order` whose rows
pass the spec's predicate — a filter value is split on commas into trimmed,
non-empty search words, an entry with non-empty value matches iff some word is
a case-insensitive substring of the stringified column value (a missing column
is the empty string), entries with empty value affect nothing, and a row is
included iff the AND group is empty or all true, the OR group is empty or at
least one true, and the NOT group is empty or all negated matches true.  The
result is computed from the complete dataset (rows missing from the map are
excluded) and is independent of the previous `filteredOrder`. -/
theorem filterTable_matches_spec (s : TableState) (filters : List FilterEntry) :
    ((filterTable s filters).filteredOrder =
      s.order.filter (fun i =>
        match alGet s.rowMap i with
        | none => false
        | some row => specRowIncluded filters row)) ∧
    ∀ fo : List Int,
      (filterTable { s with filteredOrder := fo } filters).filteredOrder =
        (filterTable s filters).filteredOrder := by
  constructor
  · rw [filterTable_filteredOrder]
    apply List.filter_congr
    intro i _
    cases alGet s.rowMap i with
    | none => rfl
    | some row => exact rowPasses_eq_spec filters row
  · intro fo
    rw [filterTable_filteredOrder, filterTable_filteredOrder]

/-! ## Claim C3 -/

/-- C3: from any state satisfying the invariant, every public mutating
operation — `setData`, `removeRow`, `updateRow`, `filterTable` and
`resetFilter` — preserves it: every id occurring in `order` or `filteredOrder`
is a key of the row map, and `filteredOrder` is a duplicate-free subsequence
of `order`. -/
theorem mutating_ops_preserve_invariant (s : TableState) (h : Inv s) :
    (∀ idF rows keep, Inv (setData idF s rows keep)) ∧
    (∀ id, Inv (removeRow s id).2) ∧
    (∀ id newData updateElement, Inv (updateRow s id newData updateElement).2) ∧
    (∀ filters, Inv (filterTable s filters)) ∧
    Inv (resetFilterState s) :=
  ⟨fun idF rows keep => inv_setData idF s rows keep h,
   fun id => inv_removeRow s id h,
   fun id newData updateElement => inv_updateRow s id newData updateElement h,
   fun filters => inv_filterTable s filters h,
   inv_resetFilterState s h⟩

theorem oneRowState_inv : Inv oneRowState :=
  ⟨by decide, by decide, List.Sublist.refl _, by decide, by decide⟩

/-- Witness: the invariant-preservation theorem applied at a concrete one-row
state (its invariant discharged by computation) and a concrete removal. -/
theorem mutating_ops_preserve_invariant_witness :
    Inv (removeRow oneRowState 1).2 :=
  (mutating_ops_preserve_invariant oneRowState oneRowState_inv).2.1 1

/-! ## Claim C5 -/

/-- C5: on an id absent from the row map, `removeRow` and `updateRow` return
`false` and leave the state completely unchanged; on a present id, `removeRow`
returns `true`, deletes exactly that row from the map, and removes exactly
that id from both `order` and `filteredOrder` (all other entries survive, in
order). -/
theorem remove_update_unknown_id_spec (s : TableState) (id : Int) (newData : JsObj)
    (updateElement : Bool) :
    (alHas s.rowMap id = false →
      removeRow s id = (false, s) ∧ updateRow s id newData updateElement = (false, s)) ∧
    (alHas s.rowMap id = true →
      (removeRow s id).1 = true ∧
      alHas (removeRow s id).2.rowMap id = false ∧
      (∀ j, j ≠ id → alGet (removeRow s id).2.rowMap j = alGet s.rowMap j) ∧
      id ∉ (removeRow s id).2.order ∧
      id ∉ (removeRow s id).2.filteredOrder ∧
      (removeRow s id).2.order.Sublist s.order ∧
      (removeRow s id).2.filteredOrder.Sublist s.filteredOrder ∧
      (∀ j ∈ s.order, j ≠ id → j ∈ (removeRow s id).2.order) ∧
      (∀ j ∈ s.filteredOrder, j ≠ id → j ∈ (removeRow s id).2.filteredOrder)) := by
  constructor
  · intro hh
    have hne : ¬ alHas s.rowMap id = true := by
      rw [hh]
      simp
    unfold removeRow updateRow
    rw [if_neg hne, if_neg hne]
    exact ⟨rfl, rfl⟩
  · intro hh
    unfold removeRow
    rw [if_pos hh]
    refine ⟨rfl, ?_, ?_, ?_, ?_, ?_, ?_, ?_, ?_⟩
    · rw [alHas_alDelete]
      simp
    · intro j hj
      rw [alGet_alDelete, if_neg (by simpa using hj)]
    · intro hmem
      rw [List.mem_filter] at hmem
      simp at hmem
    · intro hmem
      rw [List.mem_filter] at hmem
      simp at hmem
    · exact List.filter_sublist _
    · exact List.filter_sublist _
    · intro j hj hne
      exact List.mem_filter.mpr ⟨hj, by simpa using hne⟩
    · intro j hj hne
      exact List.mem_filter.mpr ⟨hj, by simpa using hne⟩

/-- Witness: the unknown-id branch at a concrete state (id 2 is absent) and
the known-id branch folded in through the same theorem at id 1. -/
theorem remove_update_unknown_id_spec_witness :
    removeRow oneRowState 2 = (false, oneRowState) ∧
    (removeRow oneRowState 1).1 = true :=
  ⟨((remove_update_unknown_id_spec oneRowState 2 [] false).1 (by decide)).1,
   ((remove_update_unknown_id_spec oneRowState 1 [] false).2 (by decide)).1⟩

/-! ## Claim C4 -/

/-- C4: ingesting a record whose resolved id already exists shallow-merges the
id-stamped record into the stored row — every field the record mentions takes
the new value, every other stored field keeps its old value — and the id is
not appended again to `order` or `filteredOrder`; a record with a fresh
resolved id is inserted as given and its id appended to both sequences. -/
theorem setData_merge_spec (idF : Option String) (s : TableState) (r : JsObj)
    (keep : Bool) (c rid : Int) (h : Inv s)
    (hrid : resolveId idF s.rowIdCounter r = (c, rid)) :
    (alHas s.rowMap rid = true →
      (setData idF s [r] keep).order = s.order ∧
      (setData idF s [r] keep).filteredOrder
        = (if keep then s.filteredOrder else s.order) ∧
      ∀ k, (alGet (setData idF s [r] keep).rowMap rid).bind (fun row => alGet row k)
        = (if alHas (alSet r ("id") (JsVal.num rid)) k
           then alGet (alSet r ("id") (JsVal.num rid)) k
           else (alGet s.rowMap rid).bind (fun row => alGet row k))) ∧
    (alHas s.rowMap rid = false →
      (setData idF s [r] keep).order = s.order ++ [rid] ∧
      (setData idF s [r] keep).filteredOrder
        = (if keep then s.filteredOrder ++ [rid] else s.order ++ [rid]) ∧
      alGet (setData idF s [r] keep).rowMap rid
        = some (alSet r ("id") (JsVal.num rid))) := by
  obtain ⟨hi1, hi2, hi3, hi4, hi5⟩ := h
  obtain ⟨ho, hm, hf⟩ := setData_single idF s r keep
  constructor
  · intro hh
    obtain ⟨old, hold⟩ := alGet_isSome_of_has hh
    have hord : (setDataStep idF s r).order = s.order := by
      simp only [setDataStep, hrid]
      rw [if_pos hh]
    have hfo : (setDataStep idF s r).filteredOrder = s.filteredOrder := by
      simp only [setDataStep, hrid]
      rw [if_pos hh]
    have hmap : (setDataStep idF s r).rowMap
        = alSet s.rowMap rid (alMergeObj old (alSet r ("id") (JsVal.num rid))) := by
      simp only [setDataStep, hrid]
      rw [if_pos hh, hold]
      rfl
    refine ⟨?_, ?_, ?_⟩
    · rw [ho, hord]
    · rw [hf, hord, hfo]
    · intro k
      rw [hm, hmap, alGet_alSet_self, hold]
      show alGet (alMergeObj old (alSet r ("id") (JsVal.num rid))) k = _
      rw [alGet_alMergeObj]
      rfl
  · intro hh
    have hni : ¬ alHas s.rowMap rid = true := by
      rw [hh]
      simp
    have hno : rid ∉ s.order := fun hmem => by
      rw [hi1 _ hmem] at hh
      cases hh
    have hnf : rid ∉ s.filteredOrder := fun hmem => by
      rw [hi2 _ hmem] at hh
      cases hh
    have ha := any_beq_eq_false_of_not_mem hno
    have hb := any_beq_eq_false_of_not_mem hnf
    have hord : (setDataStep idF s r).order = s.order ++ [rid] := by
      simp only [setDataStep, hrid]
      rw [if_neg hni]
      simp only [ha, Bool.false_eq_true, if_false]
    have hfo : (setDataStep idF s r).filteredOrder = s.filteredOrder ++ [rid] := by
      simp only [setDataStep, hrid]
      rw [if_neg hni]
      simp only [hb, Bool.false_eq_true, if_false]
    have hmap : (setDataStep idF s r).rowMap
        = alSet s.rowMap rid (alSet r ("id") (JsVal.num rid)) := by
      simp only [setDataStep, hrid]
      rw [if_neg hni]
    refine ⟨?_, ?_, ?_⟩
    · rw [ho, hord]
    · rw [hf, hord, hfo]
    · rw [hm, hmap, alGet_alSet_self]

/-- Witness: merging a record with existing id 1 leaves `order` unchanged. -/
theorem setData_merge_spec_witness :
    (setData none oneRowState
      [[(("id"), JsVal.num 1), (("name"), JsVal.str ("Bob"))]] true).order
      = oneRowState.order :=
  (((setData_merge_spec none oneRowState
      [(("id"), JsVal.num 1), (("name"), JsVal.str ("Bob"))]
      true 1 1 oneRowState_inv (by decide)).1) (by decide)).1

/-! ## Claim C6 -/

/-- C6: for positive `perPage`, `getTotalPages` is the ceiling of
`filteredOrder.length / perPage` with a minimum of 1: it is at least 1, its
pages cover every filtered row, the count is tight whenever a row exists, and
on the empty filtered order it returns exactly 1, never 0. -/
theorem getTotalPages_spec (fo : List Int) (pp : Nat) (h : 0 < pp) :
    1 ≤ getTotalPages fo pp ∧
    fo.length ≤ getTotalPages fo pp * pp ∧
    (fo ≠ [] → (getTotalPages fo pp - 1) * pp < fo.length) ∧
    (fo = [] → getTotalPages fo pp = 1) := by
  have hd := Nat.div_add_mod' (fo.length + pp - 1) pp
  have hmlt : (fo.length + pp - 1) % pp < pp := Nat.mod_lt _ h
  simp only [getTotalPages]
  by_cases hz : (fo.length + pp - 1) / pp = 0
  · rw [if_pos hz]
    rw [hz] at hd
    refine ⟨le_refl 1, by omega, ?_, fun _ => rfl⟩
    intro hne
    have hlen : 0 < fo.length := List.length_pos.mpr hne
    omega
  · rw [if_neg hz]
    refine ⟨Nat.one_le_iff_ne_zero.mpr hz, ?_, ?_, ?_⟩
    · generalize hP : (fo.length + pp - 1) / pp * pp = P at hd ⊢
      generalize hR : (fo.length + pp - 1) % pp = R at hd hmlt
      omega
    · intro hne
      have hlen : 0 < fo.length := List.length_pos.mpr hne
      rw [Nat.sub_mul, one_mul]
      generalize hP : (fo.length + pp - 1) / pp * pp = P at hd ⊢
      generalize hR : (fo.length + pp - 1) % pp = R at hd hmlt
      omega
    · intro he
      have hz' := hz
      rw [he] at hz'
      simp only [List.length_nil] at hz'
      exact absurd (Nat.div_eq_of_lt (by omega)) hz'

/-- Witness: the total-page characterization at three rows with two per page. -/
theorem getTotalPages_spec_witness :
    1 ≤ getTotalPages [(1 : Int), 2, 3] 2 :=
  (getTotalPages_spec [(1 : Int), 2, 3] 2 (by decide)).1

/-! ## Claim C7 -/

/-- C7: `setPage` stores the clamp of its argument into `[1, getTotalPages]` —
values below 1 become 1, values above the total become the total, in-range
values are kept — and `getPaginatedOrder` has slice semantics: it returns at
most `perPage` ids, always a subsequence of `filteredOrder`, and a window
starting at or beyond the end yields the empty list, never an error. -/
theorem pagination_clamp_slice_spec (fo : List Int) (pp : Nat) (n page : Int)
    (hpp : 0 < pp) (hpage : 1 ≤ page) :
    (1 ≤ setPage fo pp n ∧
     setPage fo pp n ≤ (getTotalPages fo pp : Int) ∧
     (n < 1 → setPage fo pp n = 1) ∧
     ((getTotalPages fo pp : Int) < n → setPage fo pp n = (getTotalPages fo pp : Int)) ∧
     (1 ≤ n → n ≤ (getTotalPages fo pp : Int) → setPage fo pp n = n)) ∧
    ((getPaginatedOrder fo page pp).length ≤ pp ∧
     (getPaginatedOrder fo page pp).Sublist fo ∧
     ((fo.length : Int) ≤ (page - 1) * (pp : Int) → getPaginatedOrder fo page pp = [])) := by
  have htot : 1 ≤ getTotalPages fo pp := by
    simp only [getTotalPages]
    by_cases hz : (fo.length + pp - 1) / pp = 0
    · rw [if_pos hz]
    · rw [if_neg hz]
      exact Nat.one_le_iff_ne_zero.mpr hz
  have htotZ : (1 : Int) ≤ (getTotalPages fo pp : Int) := by exact_mod_cast htot
  constructor
  · simp only [setPage]
    refine ⟨le_max_left 1 _, ?_, ?_, ?_, ?_⟩
    · exact max_le htotZ (min_le_right n _)
    · intro hlt
      exact max_eq_left (le_of_lt (lt_of_le_of_lt (min_le_left n _) hlt))
    · intro hlt
      rw [min_eq_right (le_of_lt hlt), max_eq_right htotZ]
    · intro h1 h2
      rw [min_eq_left h2, max_eq_right h1]
  · refine ⟨?_, ?_, ?_⟩
    · simp only [getPaginatedOrder]
      rw [List.length_take]
      exact min_le_left _ _
    · exact (List.take_sublist _ _).trans (List.drop_sublist _ _)
    · intro hle
      have h0 : 0 ≤ (page - 1) * (pp : Int) :=
        mul_nonneg (by omega) (by exact_mod_cast Nat.zero_le pp)
      simp only [getPaginatedOrder]
      generalize hS : (page - 1) * (pp : Int) = S at hle h0 ⊢
      have hlen : fo.length ≤ S.toNat := by omega
      rw [List.drop_eq_nil_of_le hlen, List.take_nil]

/-- Witness: clamping and slicing at a concrete filtered order. -/
theorem pagination_clamp_slice_spec_witness :
    1 ≤ setPage [(1 : Int), 2, 3] 2 99 :=
  ((pagination_clamp_slice_spec [(1 : Int), 2, 3] 2 99 2 (by decide) (by decide)).1).1

/-! ## Claim C2 -/

/-- C2 counterexample: ingesting `{id: 5, kid: 7}` with configured id field
`kid` stores the row under key 5, not under the configured field's value 7 —
the literal `id` field wins, contradicting the claimed priority of the
configured field. -/
theorem setData_configured_id_cex :
    alHas (setData (some ("kid")) (initState none)
      [[(("id"), JsVal.num 5), (("kid"), JsVal.num 7)]] false).rowMap 7 = false ∧
    alHas (setData (some ("kid")) (initState none)
      [[(("id"), JsVal.num 5), (("kid"), JsVal.num 7)]] false).rowMap 5 = true :=
  ⟨by decide, by decide⟩

/-- C2 amended: `setData` reads the literal `id` field first — whenever it is
truthy and numerically nonzero its value becomes the stored key, the
configured id field being ignored; only when the literal `id` field is absent
or falsy is the configured field consulted, and then its truthy nonzero
numeric value becomes the stored key.  In either case exactly that key is
added to the row map. -/
theorem setData_id_resolution (s : TableState) (r : JsObj) (idF : Option String)
    (keep : Bool) :
    (∀ n : Int, truthyOpt (alGet r ("id")) = true →
      jsToNumber (alGet r ("id")) = some n → n ≠ 0 →
      ∀ j, alHas (setData idF s [r] keep).rowMap j
        = (alHas s.rowMap j || (j == n))) ∧
    (∀ m : Int, ∀ key, idF = some key → truthyOpt (alGet r ("id")) = false →
      jsToNumber (alGet r key) = some m → m ≠ 0 →
      ∀ j, alHas (setData idF s [r] keep).rowMap j
        = (alHas s.rowMap j || (j == m))) := by
  have hproj := (setData_single idF s r keep).2.1
  constructor
  · intro n ht hn hnz j
    have hrv : resolvedVal idF r = alGet r ("id") := by
      unfold resolvedVal
      rw [if_pos ht]
    have hres : (resolveId idF s.rowIdCounter r).2 = n := by
      simp only [resolveId, hrv, hn]
      rw [if_neg hnz]
    rw [hproj, alHas_setDataStep, hres]
  · intro m key hk ht hm2 hmz j
    have hrv : resolvedVal idF r = alGet r key := by
      unfold resolvedVal
      rw [if_neg (by rw [ht]; simp), hk]
    have hres : (resolveId idF s.rowIdCounter r).2 = m := by
      simp only [resolveId, hrv, hm2]
      rw [if_neg hmz]
    rw [hproj, alHas_setDataStep, hres]

/-- Witness: the literal-id-wins branch instantiated at the counterexample
record — only key 5 is added, key 7 stays absent. -/
theorem setData_id_resolution_witness :
    alHas (setData (some ("kid")) (initState none)
      [[(("id"), JsVal.num 5), (("kid"), JsVal.num 7)]] false).rowMap 7
      = (alHas (initState none).rowMap 7 || ((7 : Int) == 5)) :=
  (setData_id_resolution (initState none)
    [(("id"), JsVal.num 5), (("kid"), JsVal.num 7)] (some ("kid")) false).1 5
    (by decide) (by decide) (by decide) 7

/-! ## Claim C8 -/

/-- C8 counterexample: in a reachable state where `renderHeader` was never
invoked (`this.thead` undefined), `resetFilter` does not complete without
throwing: reading `this.thead.querySelectorAll` raises a `TypeError` (the
`error` outcome), refuting the claim that no public operation throws. -/
theorem resetFilter_headerless_cex :
    resetFilter oneRowState = Except.error oneRowState := rfl

/-- C8 amended: the row-store mutations signal failure via booleans, and once
a header has been bound `resetFilter` completes without throwing — it resets
`filteredOrder` to a full copy of `order` and clears every filter input — but
in a state where `renderHeader` has never bound a header it throws a
`TypeError` (modelled as the `error` outcome) after having already reset
`filteredOrder`. -/
theorem resetFilter_spec (s : TableState) :
    (∀ inputs, s.thead = some inputs →
      resetFilter s = Except.ok { s with filteredOrder := s.order, thead := some (inputs.map (fun _ => "")) }) ∧
    (s.thead = none →
      resetFilter s = Except.error { s with filteredOrder := s.order }) := by
  obtain ⟨m, ord, fo, c, pag, th⟩ := s
  cases th with
  | none =>
    constructor
    · intro inputs hi
      simp at hi
    · intro _
      rfl
  | some inputs0 =>
    constructor
    · intro inputs hi
      have he : inputs0 = inputs := by simpa using hi
      subst he
      rfl
    · intro hn
      simp at hn

/-- Witness: with a bound header carrying one search input, `resetFilter`
completes and clears it. -/
theorem resetFilter_spec_witness :
    resetFilter { oneRowState with thead := some [("abc")] }
      = Except.ok { oneRowState with thead := some [("")] } :=
  (resetFilter_spec { oneRowState with thead := some [("abc")] }).1 [("abc")] rfl

/-! ## Claim C9 -/

theorem foldl_max_le_mem {xs : List Int} {acc : Int} :
    (∀ k ∈ xs, k ≤ xs.foldl max acc) ∧ acc ≤ xs.foldl max acc ∧
    (xs.foldl max acc = acc ∨ xs.foldl max acc ∈ xs) := by
  induction xs generalizing acc with
  | nil => exact ⟨by simp, le_refl acc, Or.inl rfl⟩
  | cons x t ih =>
    obtain ⟨ih1, ih2, ih3⟩ := @ih (max acc x)
    rw [List.foldl_cons]
    refine ⟨?_, ?_, ?_⟩
    · intro k hk
      rcases List.mem_cons.mp hk with rfl | hk
      · exact le_trans (le_max_right acc k) ih2
      · exact ih1 k hk
    · exact le_trans (le_max_left acc x) ih2
    · rcases ih3 with he | hm
      · rw [he]
        rcases max_choice acc x with hc | hc
        · exact Or.inl hc
        · exact Or.inr (by rw [hc]; exact List.mem_cons_self x t)
      · exact Or.inr (List.mem_cons_of_mem x hm)

theorem maxList_spec {l : List Int} (h : l ≠ []) :
    (∀ k ∈ l, k ≤ maxList l) ∧ maxList l ∈ l := by
  cases l with
  | nil => exact absurd rfl h
  | cons x xs =>
    obtain ⟨h1, h2, h3⟩ := @foldl_max_le_mem xs x
    constructor
    · intro k hk
      rcases List.mem_cons.mp hk with rfl | hk
      · exact h2
      · exact h1 k hk
    · rcases h3 with he | hm
      · show xs.foldl max x ∈ x :: xs
        rw [he]
        exact List.mem_cons_self x xs
      · exact List.mem_cons_of_mem x hm

/-- C9: after every `setData` call, the auto-id counter equals the maximum id
among the stored keys (`0` when the store is empty); in particular, starting
from the empty store with no configured id field, an id-less record gets id 1
and a second id-less record gets id 2 — whether ingested in a later call or in
the same call — with no collision. -/
theorem setData_counter_spec (idF : Option String) (s : TableState)
    (rows : List JsObj) (keep : Bool) :
    ((setData idF s rows keep).rowMap = [] → (setData idF s rows keep).rowIdCounter = 0) ∧
    ((setData idF s rows keep).rowMap ≠ [] →
      (∀ k ∈ alKeys (setData idF s rows keep).rowMap,
        k ≤ (setData idF s rows keep).rowIdCounter) ∧
      (setData idF s rows keep).rowIdCounter ∈ alKeys (setData idF s rows keep).rowMap) ∧
    alKeys (setData none (setData none (initState none)
      [[(("name"), JsVal.str ("Alice"))]] false)
      [[(("name"), JsVal.str ("Bob"))]] false).rowMap = [1, 2] ∧
    alKeys (setData none (initState none)
      [[(("name"), JsVal.str ("Alice"))], [(("name"), JsVal.str ("Bob"))]] false).rowMap
      = [1, 2] := by
  unfold setData
  set s1 := rows.foldl (setDataStep idF) s with hs1
  set s2 := if keep then s1 else { s1 with filteredOrder := s1.order } with hs2
  refine ⟨?_, ?_, by decide, by decide⟩
  · intro he
    have he' : s2.rowMap = [] := he
    show (if s2.rowMap.isEmpty then 0 else maxList (alKeys s2.rowMap)) = 0
    rw [he']
    rfl
  · intro hne
    have hne' : s2.rowMap ≠ [] := hne
    have hkeys : alKeys s2.rowMap ≠ [] := by
      cases hk : s2.rowMap with
      | nil => exact absurd hk hne'
      | cons p t => simp [alKeys, hk]
    obtain ⟨hb, hm⟩ := maxList_spec hkeys
    have hie : s2.rowMap.isEmpty = false := by
      cases hk : s2.rowMap with
      | nil => exact absurd hk hne'
      | cons p t => rfl
    constructor
    · intro k hk2
      show k ≤ (if s2.rowMap.isEmpty then 0 else maxList (alKeys s2.rowMap))
      rw [hie]
      simp only [Bool.false_eq_true, if_false]
      exact hb k hk2
    · show (if s2.rowMap.isEmpty then 0 else maxList (alKeys s2.rowMap)) ∈ alKeys s2.rowMap
      rw [hie]
      simp only [Bool.false_eq_true, if_false]
      exact hm

/-- Witness: after ingesting one id-less record into the empty store, the
counter is itself a stored key (the maximum, here 1). -/
theorem setData_counter_spec_witness :
    (setData none (initState none) [[(("name"), JsVal.str ("Alice"))]] false).rowIdCounter
      ∈ alKeys (setData none (initState none)
        [[(("name"), JsVal.str ("Alice"))]] false).rowMap :=
  (((setData_counter_spec none (initState none)
    [[(("name"), JsVal.str ("Alice"))]] false).2.1) (by decide)).2

/-! ## Claim C10 -/

/-- C10 counterexample: ingest a row with id `-1` (the counter is recomputed
to `-1`), then a record with the explicit caller-supplied id `0`: it falls
through to the auto counter, which assigns `-1 + 1 = 0`, so the row IS stored
under key `0` — refuting both that a caller-supplied id of 0 is never stored
as 0 and that 0 can never be a key after ingestion. -/
theorem zero_id_stored_cex :
    alHas (setData none (setData none (initState none)
      [[(("id"), JsVal.num (-1))]] false)
      [[(("id"), JsVal.num 0)]] false).rowMap 0 = true := by
  decide

/-- C10 amended: a record whose resolved id value numerically coerces to `0`
or `NaN` — the explicit id 0, the empty string, a non-numeric string, or an
absent field — is treated as id-less and silently assigned `rowIdCounter + 1`;
whenever the counter is nonnegative that auto id is positive, so no key `0` is
created, but a negative counter (reachable through negative stored ids) can
make the auto id `0`. -/
theorem zero_or_nan_id_auto (idF : Option String) (s : TableState) (r : JsObj)
    (h : jsToNumber (resolvedVal idF r) = some 0 ∨ jsToNumber (resolvedVal idF r) = none) :
    resolveId idF s.rowIdCounter r = (s.rowIdCounter + 1, s.rowIdCounter + 1) ∧
    (∀ j, alHas (setDataStep idF s r).rowMap j
      = (alHas s.rowMap j || (j == s.rowIdCounter + 1))) ∧
    (0 ≤ s.rowIdCounter →
      alHas (setDataStep idF s r).rowMap 0 = alHas s.rowMap 0) := by
  have h1 : resolveId idF s.rowIdCounter r = (s.rowIdCounter + 1, s.rowIdCounter + 1) := by
    rcases h with h | h
    · simp [resolveId, h]
    · simp [resolveId, h]
  refine ⟨h1, ?_, ?_⟩
  · intro j
    rw [alHas_setDataStep, h1]
  · intro h0
    rw [alHas_setDataStep, h1]
    show (alHas s.rowMap 0 || ((0 : Int) == s.rowIdCounter + 1)) = alHas s.rowMap 0
    have hne : ((0 : Int) == s.rowIdCounter + 1) = false := by
      simp only [beq_eq_false_iff_ne]
      omega
    rw [hne, Bool.or_false]

/-- Witness: a record with a non-numeric id string is auto-assigned
`counter + 1 = 1` in the empty initial state. -/
theorem zero_or_nan_id_auto_witness :
    resolveId none (initState none).rowIdCounter [(("id"), JsVal.str ("abc"))] = (1, 1) :=
  (zero_or_nan_id_auto none (initState none) [(("id"), JsVal.str ("abc"))]
    (Or.inr (by decide))).1

end MyTable
